import Mathlib

/-!
Verification development for the email body extraction core of
`email-to-discord` (`src/index.ts`).

Strings are modelled as `List Char` (one element per code point).  The two
functions under study are `decodeContent` and `extractEmailBody`; the regular
expressions of the source are hand-compiled to deterministic scanners below,
following the exact left-to-right / greedy-with-backtracking semantics of the
JavaScript regular-expression engine on those concrete patterns.
-/

namespace EmailToDiscord

/-- The JavaScript `\s` class (identical to the set removed by
`String.prototype.trim`): tab, LF, VT, FF, CR, space, NBSP, and the Unicode
space separators, line/paragraph separators and BOM. -/
def isJsWs (c : Char) : Bool :=
  let n := c.toNat
  n == 9 || n == 10 || n == 11 || n == 12 || n == 13 || n == 32 ||
  n == 0xa0 || n == 0x1680 || (0x2000 ≤ n && n ≤ 0x200a) ||
  n == 0x2028 || n == 0x2029 || n == 0x202f || n == 0x205f ||
  n == 0x3000 || n == 0xfeff

/-- JavaScript line terminators: the positions at which a multiline `^` can
anchor (right after one of these characters). -/
def isLineTerm (c : Char) : Bool :=
  c == '\n' || c == '\r' || c.toNat == 0x2028 || c.toNat == 0x2029

/-- Drop leading JS whitespace. -/
def trimLeft (l : List Char) : List Char := l.dropWhile isJsWs

/-- Drop trailing JS whitespace. -/
def trimRight (l : List Char) : List Char := (l.reverse.dropWhile isJsWs).reverse

/-- `String.prototype.trim`. -/
def jsTrim (l : List Char) : List Char := trimRight (trimLeft l)

/-- ASCII whitespace stripped by the forgiving-base64 decode inside `atob`. -/
def isB64Ws (c : Char) : Bool :=
  c == '\t' || c == '\n' || c.toNat == 12 || c == '\r' || c == ' '

/-- Value of a base64 alphabet character, `none` outside the alphabet. -/
def b64Val (c : Char) : Option Nat :=
  if 'A' ≤ c && c ≤ 'Z' then some (c.toNat - 65)
  else if 'a' ≤ c && c ≤ 'z' then some (c.toNat - 71)
  else if '0' ≤ c && c ≤ '9' then some (c.toNat + 4)
  else if c == '+' then some 62
  else if c == '/' then some 63
  else none

/-- Decode a whitespace-free, `=`-free base64 string to its byte sequence,
chunk by chunk; a trailing chunk of 2 or 3 characters yields 1 or 2 bytes. -/
def b64Bytes : List Char → Option (List Nat)
  | [] => some []
  | c1 :: c2 :: c3 :: c4 :: rest => do
    let v1 ← b64Val c1
    let v2 ← b64Val c2
    let v3 ← b64Val c3
    let v4 ← b64Val c4
    let tail ← b64Bytes rest
    let buf := ((v1 * 64 + v2) * 64 + v3) * 64 + v4
    some (buf / 65536 :: buf / 256 % 256 :: buf % 256 :: tail)
  | [c1, c2] => do
    let v1 ← b64Val c1
    let v2 ← b64Val c2
    some [(v1 * 64 + v2) / 16]
  | [c1, c2, c3] => do
    let v1 ← b64Val c1
    let v2 ← b64Val c2
    let v3 ← b64Val c3
    let buf := (v1 * 64 + v2) * 64 + v3
    some [buf / 1024, buf / 4 % 256]
  | [_] => none

/-- Remove up to two trailing `=` padding characters. -/
def stripTrailingEq (l : List Char) : List Char :=
  match l.reverse with
  | '=' :: '=' :: r => r.reverse
  | '=' :: r => r.reverse
  | _ => l

/-- `atob`: the WHATWG forgiving-base64 decode, producing one character per
decoded byte; `none` models the `InvalidCharacterError` throw. -/
def atob (data : List Char) : Option (List Char) :=
  let d0 := data.filter (fun c => !(isB64Ws c))
  let d := if d0.length % 4 == 0 then stripTrailingEq d0 else d0
  if d.length % 4 == 1 then none
  else (b64Bytes d).map (fun bs => bs.map Char.ofNat)

/-- `encodedText.replace(/=\r\n/g, "")`: remove quoted-printable soft line
breaks, scanning left to right. -/
def removeSoftBreaks : List Char → List Char
  | '=' :: '\r' :: '\n' :: rest => removeSoftBreaks rest
  | c :: rest => c :: removeSoftBreaks rest
  | [] => []

/-- Hexadecimal digit, as in the class `[0-9A-Fa-f]`. -/
def isHexDig (c : Char) : Bool :=
  ('0' ≤ c && c ≤ '9') || ('A' ≤ c && c ≤ 'F') || ('a' ≤ c && c ≤ 'f')

/-- Numeric value of a hexadecimal digit (0 on other input). -/
def hexVal (c : Char) : Nat :=
  if '0' ≤ c && c ≤ '9' then c.toNat - 48
  else if 'A' ≤ c && c ≤ 'F' then c.toNat - 55
  else if 'a' ≤ c && c ≤ 'f' then c.toNat - 87
  else 0

/-- `.replace(/=([0-9A-Fa-f]{2})/g, (m, p1) => String.fromCharCode(parseInt(p1, 16)))`:
replace each `=XX` escape by the character with that code, left to right. -/
def qpUnescape : List Char → List Char
  | '=' :: c1 :: c2 :: rest =>
    if isHexDig c1 && isHexDig c2 then
      Char.ofNat (16 * hexVal c1 + hexVal c2) :: qpUnescape rest
    else '=' :: qpUnescape (c1 :: c2 :: rest)
  | c :: rest => c :: qpUnescape rest
  | [] => []

/-- `decodeContent` from `src/index.ts`: dispatch on the lower-cased
transfer-encoding name; base64 strips `\s` then `atob`s (falling back to the
original text when `atob` throws); quoted-printable removes soft breaks and
unescapes `=XX`; anything else is the identity.  (Case mapping is ASCII,
matching the behaviour of JavaScript on these ASCII comparison targets.) -/
def decodeContent (encodedText : List Char) (transferEncoding : List Char) : List Char :=
  if encodedText.isEmpty then []
  else
    let encoding := transferEncoding.map Char.toLower
    if encoding = "base64".data then
      match atob (encodedText.filter (fun c => !(isJsWs c))) with
      | some d => d
      | none => encodedText
    else if encoding = "quoted-printable".data then
      qpUnescape (removeSoftBreaks encodedText)
    else encodedText

/-- The header/body separator `"\r\n\r\n"`. -/
def crlfcrlf : List Char := ['\r', '\n', '\r', '\n']

/-- `indexOf("\r\n\r\n")` followed by the two `substring` calls: split a
message at the first CRLF-CRLF into the header block and the remaining body
(`none` when the separator is absent, the `indexOf == -1` case). -/
def splitHeaderBody : List Char → Option (List Char × List Char)
  | [] => none
  | c :: rest =>
    if crlfcrlf.isPrefixOf (c :: rest) then some ([], rest.drop 3)
    else match splitHeaderBody rest with
      | some (h, b) => some (c :: h, b)
      | none => none

/-- Case-insensitively consume the literal `pat` from the front of `s`
(ASCII case folding, as the `i` flag gives on ASCII literals). -/
def dropCI : List Char → List Char → Option (List Char)
  | [], s => some s
  | _ :: _, [] => none
  | a :: pat, c :: s => if c.toLower == a.toLower then dropCI pat s else none

/-- The class `[a-zA-Z0-9._-]` of the multipart subtype. -/
def isSubtypeChar (c : Char) : Bool :=
  ('a' ≤ c && c ≤ 'z') || ('A' ≤ c && c ≤ 'Z') || ('0' ≤ c && c ≤ '9') ||
  c == '.' || c == '_' || c == '-'

/-- The class `[^"\s]` of the boundary parameter value. -/
def isBoundaryChar (c : Char) : Bool := !(c == '"' || isJsWs c)

/-- One attempt of
`/^Content-Type:\s*multipart\/[a-zA-Z0-9._-]+;\s*boundary="?([^"\s]+)"?/i`
at a fixed position: each `\s*` is greedy and cannot profitably backtrack
(the following literal never starts with whitespace), the subtype run must be
non-empty and be followed immediately by `;`, and `"?` consumes a quote
exactly when one is present (backtracking it cannot rescue the match, since
`"` is excluded from the captured class).  Returns capture group 1. -/
def matchBoundaryAt (s : List Char) : Option (List Char) :=
  match dropCI "content-type:".data s with
  | none => none
  | some r1 =>
    match dropCI "multipart/".data (r1.dropWhile isJsWs) with
    | none => none
    | some r3 =>
      if (r3.takeWhile isSubtypeChar).isEmpty then none
      else
        match r3.dropWhile isSubtypeChar with
        | ';' :: r5 =>
          (match dropCI "boundary=".data (r5.dropWhile isJsWs) with
          | none => none
          | some r7 =>
            let t := if r7.head? == some '"' then r7.tail else r7
            let v := t.takeWhile isBoundaryChar
            if v.isEmpty then none else some v)
        | _ => none

/-- Scan for the first multiline-anchored match of the multipart
`Content-Type` pattern: a position qualifies when it is the start of the
string or follows a line terminator (`^` with the `m` flag). -/
def findBoundary : Bool → List Char → Option (List Char)
  | _, [] => none
  | anchored, c :: rest =>
    match if anchored then matchBoundaryAt (c :: rest) else none with
    | some v => some v
    | none => findBoundary (isLineTerm c) rest

/-- Capture group 1 of `\s*([^;]+)` applied to the text `t` after the
`Content-Type:` literal, with JS greedy backtracking: if the first
non-whitespace character exists and is not `;`, the group is the run from
there up to the first `;`; otherwise the greedy `\s*` gives back one
character and the group is the last whitespace character (if any). -/
def ctValue (t : List Char) : Option (List Char) :=
  let w := t.takeWhile isJsWs
  let r := t.dropWhile isJsWs
  match r with
  | c :: _ =>
    if c == ';' then (w.getLast?).map (fun lc => [lc])
    else some (r.takeWhile (fun d => !(d == ';')))
  | [] => (w.getLast?).map (fun lc => [lc])

/-- First match of `/Content-Type:\s*([^;]+).../i` anywhere in the header
block (the optional `charset` group is captured but unused in the source). -/
def findCT : List Char → Option (List Char)
  | [] => none
  | c :: rest =>
    match (dropCI "content-type:".data (c :: rest)).bind ctValue with
    | some v => some v
    | none => findCT rest

/-- Capture group 1 of `\s*([^\r\n]+)` after `Content-Transfer-Encoding:`:
if a non-whitespace character exists, the run from the first one up to the
next CR/LF; otherwise the last whitespace character other than CR/LF. -/
def teValue (t : List Char) : Option (List Char) :=
  let w := t.takeWhile isJsWs
  let r := t.dropWhile isJsWs
  match r with
  | _ :: _ => some (r.takeWhile (fun d => !(d == '\r' || d == '\n')))
  | [] => ((w.filter (fun d => !(d == '\r' || d == '\n'))).getLast?).map (fun lc => [lc])

/-- First match of `/Content-Transfer-Encoding:\s*([^\r\n]+)/i` anywhere in a
header block. -/
def findTE : List Char → Option (List Char)
  | [] => none
  | c :: rest =>
    match (dropCI "content-transfer-encoding:".data (c :: rest)).bind teValue with
    | some v => some v
    | none => findTE rest

/-- Characters special to JavaScript regular-expression syntax.  The source
interpolates the boundary into `new RegExp` verbatim; a boundary free of
these characters yields a pattern that matches the boundary literally. -/
def isRegexMeta (c : Char) : Bool :=
  c == '\\' || c == '^' || c == '$' || c == '.' || c == '|' || c == '?' ||
  c == '*' || c == '+' || c == '(' || c == ')' || c == '[' || c == ']' ||
  c == '{' || c == '}'

/-- A boundary whose interpolation into the splitting pattern is literal. -/
def boundarySafe (b : List Char) : Bool := b.all (fun c => !(isRegexMeta c))

/-- After a delimiter's `--B` core, greedily consume the optional terminal
`--` and the optional trailing CRLF. -/
def delimTail (r : List Char) : List Char :=
  if ['-', '-'].isPrefixOf r then
    if ['\r', '\n'].isPrefixOf (r.drop 2) then (r.drop 2).drop 2 else r.drop 2
  else
    if ['\r', '\n'].isPrefixOf r then r.drop 2 else r

/-- Match of `(?:\r\n)?--B(?:--)?(?:\r\n)?` (literal boundary `B`) starting
at the head of `l`; returns the remainder after the greedy match. -/
def matchDelim (b l : List Char) : Option (List Char) :=
  if ('\r' :: '\n' :: '-' :: '-' :: b).isPrefixOf l then
    some (delimTail (l.drop (b.length + 4)))
  else if ('-' :: '-' :: b).isPrefixOf l then
    some (delimTail (l.drop (b.length + 2)))
  else none

theorem delimTail_length_le (r : List Char) : (delimTail r).length ≤ r.length := by
  unfold delimTail
  split <;> split <;> (try simp only [List.length_drop]) <;> omega

theorem matchDelim_length_lt {b l r : List Char} (h : matchDelim b l = some r) :
    r.length < l.length := by
  unfold matchDelim at h
  split at h
  · rename_i h1
    have hp := List.IsPrefix.length_le (List.isPrefixOf_iff_prefix.mp h1)
    simp only [List.length_cons] at hp
    cases h
    have ht := delimTail_length_le (l.drop (b.length + 4))
    simp only [List.length_drop] at ht
    omega
  · split at h
    · rename_i h1 h2
      have hp := List.IsPrefix.length_le (List.isPrefixOf_iff_prefix.mp h2)
      simp only [List.length_cons] at hp
      cases h
      have ht := delimTail_length_le (l.drop (b.length + 2))
      simp only [List.length_drop] at ht
      omega
    · exact absurd h (by simp)

/-- Scanner for `rawBodyContent.split(boundaryRegex)` with a literal
boundary: scan left to right, cut at every delimiter match (the pattern
always consumes at least `--B`, so matches are never empty), keep empty
pieces.  The `fuel` argument only makes the recursion structural: every
step strictly shrinks the text (`matchDelim_length_lt`), so with
`fuel = l.length` the zero-fuel branch is unreachable. -/
def splitBoundaryGo (b : List Char) : Nat → List Char → List Char → List (List Char)
  | _, acc, [] => [acc.reverse]
  | 0, acc, l => [acc.reverse ++ l]
  | fuel + 1, acc, c :: rest =>
    match matchDelim b (c :: rest) with
    | some r => acc.reverse :: splitBoundaryGo b fuel [] r
    | none => splitBoundaryGo b fuel (c :: acc) rest

/-- `rawBodyContent.split(boundaryRegex)` for a literal boundary. -/
def splitBoundary (b body : List Char) : List (List Char) :=
  splitBoundaryGo b body.length [] body

/-- Rest of the input after the first `>` (the end of one
`/<[^>]*>?/` match), when a `>` exists. -/
def skipTag : List Char → Option (List Char)
  | [] => none
  | c :: r => if c == '>' then some r else skipTag r

theorem skipTag_length_lt : ∀ {l r : List Char}, skipTag l = some r → r.length < l.length := by
  intro l
  induction l with
  | nil => intro r h; simp [skipTag] at h
  | cons c t ih =>
    intro r h
    simp only [skipTag] at h
    by_cases hc : c == '>'
    · rw [if_pos hc] at h
      cases h
      simp
    · rw [if_neg (by simpa using hc)] at h
      exact Nat.lt_trans (ih h) (by simp)

/-- Scanner for `htmlBody.replace(/<[^>]*>?/gm, " ")`: each `<`-initiated
tag-like run is replaced by a single space; an unterminated `<...` match
extends to the end of the string.  The `fuel` argument only makes the
recursion structural: every step strictly shrinks the text
(`skipTag_length_lt`), so with `fuel = l.length` the zero-fuel branch is
unreachable. -/
def stripTagsGo : Nat → List Char → List Char
  | _, [] => []
  | 0, l => l
  | fuel + 1, c :: rest =>
    if c == '<' then
      match skipTag rest with
      | some r => ' ' :: stripTagsGo fuel r
      | none => [' ']
    else c :: stripTagsGo fuel rest

/-- `htmlBody.replace(/<[^>]*>?/gm, " ")`. -/
def stripTags (l : List Char) : List Char := stripTagsGo l.length l

/-- `String.prototype.includes`: `needle` occurs contiguously in the
haystack. -/
def containsSub (needle : List Char) : List Char → Bool
  | [] => needle.isEmpty
  | c :: rest => needle.isPrefixOf (c :: rest) || containsSub needle rest

/-- Lower-cased first `Content-Type` value of a part's header block
(`""` when the pattern does not match). -/
def lowerCT (ph : List Char) : List Char := ((findCT ph).getD []).map Char.toLower

/-- Lower-cased first `Content-Transfer-Encoding` value of a header block
(`""` when the pattern does not match). -/
def lowerTE (ph : List Char) : List Char := ((findTE ph).getD []).map Char.toLower

/-- The `for (const part of parts)` loop, carrying `plainTextBody` and
`htmlBody`: whitespace-only parts and parts without their own CRLF-CRLF are
skipped; a `text/plain` part is decoded and the loop breaks; a `text/html`
part is decoded into the HTML slot and scanning continues. -/
def scanParts : List (List Char) → List Char → List Char → List Char × List Char
  | [], p, h => (p, h)
  | part :: rest, p, h =>
    if (jsTrim part).isEmpty then scanParts rest p h
    else match splitHeaderBody part with
      | none => scanParts rest p h
      | some (ph, pb) =>
        if containsSub "text/plain".data (lowerCT ph) then
          (decodeContent pb (lowerTE ph), h)
        else if containsSub "text/html".data (lowerCT ph) then
          scanParts rest p (decodeContent pb (lowerTE ph))
        else scanParts rest p h

/-- The final resolution (lines 74–79 of the source): a non-blank plain-text
body wins, else a non-blank HTML body is tag-stripped and trimmed, else the
empty string. -/
def resolve (plainTextBody htmlBody : List Char) : List Char :=
  if !(jsTrim plainTextBody).isEmpty then jsTrim plainTextBody
  else if !(jsTrim htmlBody).isEmpty then jsTrim (stripTags htmlBody)
  else []

/-- The `else` branch of the main conditional: read the top-level
`Content-Transfer-Encoding`, decode the whole raw body as the plain-text
candidate, and resolve with an empty HTML candidate. -/
def singlePartExtract (initialHeaders rawBodyContent : List Char) : Except Unit (List Char) :=
  .ok (resolve (decodeContent rawBodyContent (lowerTE initialHeaders)) [])

/-- The multipart branch: split the body on the boundary pattern, run the
part loop, resolve.  A boundary containing regular-expression
metacharacters is modelled as an error: for such a boundary the source's
`new RegExp` either throws a `SyntaxError` (invalid pattern, e.g. boundary
`(`) or produces a non-literal pattern; the model's split semantics cover
exactly the literal case. -/
def multipartExtract (boundary rawBodyContent : List Char) : Except Unit (List Char) :=
  if boundarySafe boundary then
    let r := scanParts (splitBoundary boundary rawBodyContent) [] []
    .ok (resolve r.1 r.2)
  else .error ()

/-- `extractEmailBody` from `src/index.ts`.  `Except` models exception
propagation: `.error` is a throw escaping the function. -/
def extractEmailBody (rawEmailContent : List Char) : Except Unit (List Char) :=
  match splitHeaderBody rawEmailContent with
  | none => .ok (jsTrim rawEmailContent)
  | some (initialHeaders, rawBodyContent) =>
    match findBoundary true initialHeaders with
    | some boundary =>
      if rawBodyContent.isEmpty then singlePartExtract initialHeaders rawBodyContent
      else multipartExtract boundary rawBodyContent
    | none => singlePartExtract initialHeaders rawBodyContent

/-- The `Content-Type` boundary declared by a raw message's header block,
if any. -/
def declaredBoundary (raw : List Char) : Option (List Char) :=
  (splitHeaderBody raw).bind fun p => findBoundary true p.1

/-- The declared boundary, if present, is free of regex metacharacters. -/
def boundaryOk (raw : List Char) : Bool :=
  match declaredBoundary raw with
  | some b => boundarySafe b
  | none => true

/-! ### Helper lemmas -/

theorem dropWhile_dropWhile (p : Char → Bool) (l : List Char) :
    (l.dropWhile p).dropWhile p = l.dropWhile p := by
  induction l with
  | nil => rfl
  | cons c t ih =>
    by_cases h : p c
    · simp [List.dropWhile_cons, h, ih]
    · simp [List.dropWhile_cons, h]

theorem head_dropWhile_false (p : Char → Bool) (l : List Char) :
    ∀ c, (l.dropWhile p).head? = some c → p c = false := by
  induction l with
  | nil => intro c h; simp at h
  | cons a t ih =>
    intro c h
    by_cases ha : p a
    · rw [List.dropWhile_cons, if_pos ha] at h
      exact ih c h
    · rw [List.dropWhile_cons, if_neg ha] at h
      simp only [List.head?_cons, Option.some.injEq] at h
      subst h
      exact Bool.not_eq_true _ ▸ (by simpa using ha)

theorem trimRight_cons (c : Char) (l : List Char) (hc : isJsWs c = false) :
    trimRight (c :: l) = c :: trimRight l := by
  unfold trimRight
  rw [List.reverse_cons, List.dropWhile_append]
  by_cases h : (l.reverse.dropWhile isJsWs).isEmpty
  · rw [if_pos h, List.isEmpty_iff.mp h]
    simp [List.dropWhile_cons, hc]
  · rw [if_neg h]
    simp

theorem trimRight_trimRight (l : List Char) : trimRight (trimRight l) = trimRight l := by
  unfold trimRight
  rw [List.reverse_reverse, dropWhile_dropWhile]

theorem jsTrim_idem (l : List Char) : jsTrim (jsTrim l) = jsTrim l := by
  unfold jsTrim
  have hLeft : trimLeft (trimRight (trimLeft l)) = trimRight (trimLeft l) := by
    cases hM2 : trimLeft l with
    | nil => rfl
    | cons c t =>
      have hc : isJsWs c = false := by
        apply head_dropWhile_false isJsWs l
        unfold trimLeft at hM2
        rw [hM2]
        rfl
      rw [trimRight_cons c t hc]
      unfold trimLeft
      rw [List.dropWhile_cons, if_neg (by simp [hc])]
  rw [hLeft, trimRight_trimRight]

theorem resolve_trimmed (p h : List Char) : jsTrim (resolve p h) = resolve p h := by
  unfold resolve
  split
  · exact jsTrim_idem p
  · split
    · exact jsTrim_idem (stripTags h)
    · rfl

theorem resolve_nil (p : List Char) : resolve p [] = jsTrim p := by
  unfold resolve
  split
  · rfl
  · rename_i hcond
    have hempty : jsTrim p = [] := by
      simp only [Bool.not_eq_true', Bool.not_eq_false] at hcond
      exact List.isEmpty_iff.mp hcond
    rw [hempty]
    rfl

theorem splitHeaderBody_eq_none_iff (l : List Char) :
    splitHeaderBody l = none ↔ ¬ (crlfcrlf <:+: l) := by
  induction l with
  | nil =>
    simp only [splitHeaderBody, List.infix_nil, true_iff]
    intro h
    simp [crlfcrlf] at h
  | cons c rest ih =>
    rw [List.infix_cons_iff]
    by_cases hp : crlfcrlf.isPrefixOf (c :: rest)
    · have hpp : crlfcrlf <+: c :: rest := List.isPrefixOf_iff_prefix.mp hp
      simp only [splitHeaderBody, hp, if_true]
      simp [hpp]
    · have hpp : ¬ (crlfcrlf <+: c :: rest) :=
        fun h2 => hp (List.isPrefixOf_iff_prefix.mpr h2)
      simp only [splitHeaderBody, hp, Bool.false_eq_true, if_false]
      cases hsb : splitHeaderBody rest with
      | none =>
        have hni : ¬ (crlfcrlf <:+: rest) := ih.mp hsb
        simp [hpp, hni]
      | some pr =>
        have hinf : crlfcrlf <:+: rest := by
          by_contra hni
          rw [← ih] at hni
          rw [hni] at hsb
          cases hsb
        simp [hpp, hinf]

/-! ### Claims -/

/-- **C3** (confirmed).  For every input string containing no occurrence of
CRLF CRLF, `extractEmailBody` returns exactly the trimmed input (no header
parsing, no decoding, no exception). -/
theorem claim3_bare_body (l : List Char) (h : ¬ (crlfcrlf <:+: l)) :
    extractEmailBody l = .ok (jsTrim l) := by
  unfold extractEmailBody
  rw [(splitHeaderBody_eq_none_iff l).mpr h]

/-- Witness for **C3** at the concrete input `" hi \n"`. -/
theorem claim3_witness :
    ¬ (crlfcrlf <:+: " hi \n".data) ∧
      extractEmailBody " hi \n".data = .ok (jsTrim " hi \n".data) :=
  ⟨by decide, claim3_bare_body " hi \n".data (by decide)⟩

/-- **C7** (confirmed).  `extractEmailBody` is a pure function of its input:
two invocations on the same raw input yield identical results (in this
model there is no state to vary between calls). -/
theorem claim7_deterministic (raw : List Char) :
    extractEmailBody raw = extractEmailBody raw := rfl

/-- **C10** (confirmed).  Every value returned (without throwing) by
`extractEmailBody` equals its own trim: no leading or trailing
whitespace survives any return path. -/
theorem claim10_trimmed (raw r : List Char) (h : extractEmailBody raw = .ok r) :
    jsTrim r = r := by
  unfold extractEmailBody at h
  cases hs : splitHeaderBody raw with
  | none =>
    rw [hs] at h
    simp only [Except.ok.injEq] at h
    subst h
    exact jsTrim_idem raw
  | some pr =>
    rw [hs] at h
    cases pr with
    | mk hd bd =>
      cases hfb : findBoundary true hd with
      | some b =>
        simp only [hfb] at h
        by_cases hbe : bd.isEmpty
        · rw [if_pos hbe] at h
          unfold singlePartExtract at h
          simp only [Except.ok.injEq] at h
          subst h
          exact resolve_trimmed _ _
        · rw [if_neg hbe] at h
          unfold multipartExtract at h
          by_cases hsafe : boundarySafe b
          · rw [if_pos hsafe] at h
            simp only [Except.ok.injEq] at h
            subst h
            exact resolve_trimmed _ _
          · rw [if_neg hsafe] at h
            cases h
      | none =>
        simp only [hfb] at h
        unfold singlePartExtract at h
        simp only [Except.ok.injEq] at h
        subst h
        exact resolve_trimmed _ _

/-- Witness for **C10** at the concrete input `"x"`. -/
theorem claim10_witness : jsTrim "x".data = "x".data :=
  claim10_trimmed "x".data "x".data rfl

/-- The single-part quoted-printable message of claim C2. -/
def qpMessage : List Char :=
  "Content-Transfer-Encoding: quoted-printable\r\n\r\nCaf=C3=A9".data

/-- **C2** counterexample.  The claimed output `"Café"` is wrong: the decoder
maps each `=XX` to the UTF-16 code unit `XX`, so `=C3=A9` becomes the two
characters `Ã©`, not the single character `é`. -/
theorem claim2_counterexample :
    extractEmailBody qpMessage ≠ .ok "Café".data := by
  intro h
  have h2 : extractEmailBody qpMessage = .ok "CafÃ©".data := rfl
  rw [h2] at h
  simp only [Except.ok.injEq] at h
  exact absurd h (by decide)

/-- **C2** (corrected).  On the quoted-printable message with body
`"Caf=C3=A9"` the extractor returns `"CafÃ©"` (code points C3 and A9
verbatim); and in general each remaining `=XX` escape with two hex digits is
replaced by the single character whose code point equals that hex value. -/
theorem claim2_qp_decode :
    extractEmailBody qpMessage = .ok "CafÃ©".data ∧
      ∀ (c1 c2 : Char) (rest : List Char),
        isHexDig c1 = true → isHexDig c2 = true →
        qpUnescape ('=' :: c1 :: c2 :: rest) =
          Char.ofNat (16 * hexVal c1 + hexVal c2) :: qpUnescape rest := by
  constructor
  · rfl
  · intro c1 c2 rest h1 h2
    show (if (isHexDig c1 && isHexDig c2) = true
        then Char.ofNat (16 * hexVal c1 + hexVal c2) :: qpUnescape rest
        else '=' :: qpUnescape (c1 :: c2 :: rest)) =
      Char.ofNat (16 * hexVal c1 + hexVal c2) :: qpUnescape rest
    rw [if_pos (by simp [h1, h2])]

/-- Witness for **C2**'s general `=XX` rule at `"=41"`. -/
theorem claim2_witness : qpUnescape "=41".data = ['A'] := by
  have h := claim2_qp_decode.2 '4' '1' [] rfl rfl
  simpa using h

/-- The html-only multipart message of claim C4. -/
def htmlMessage : List Char :=
  ("Content-Type: multipart/alternative; boundary=b1\r\n\r\n--b1\r\n" ++
   "Content-Type: text/html\r\n\r\n<p>Hi <b>there</b></p>\r\n--b1--\r\n").data

/-- **C4** counterexample.  The claimed output `"Hi there"` is wrong: each
tag is replaced by one space and nothing collapses runs of whitespace, so
`"Hi "` plus the space standing in for `<b>` leaves two spaces. -/
theorem claim4_counterexample :
    extractEmailBody htmlMessage ≠ .ok "Hi there".data := by
  intro h
  have h2 : extractEmailBody htmlMessage = .ok "Hi  there".data := rfl
  rw [h2] at h
  simp only [Except.ok.injEq] at h
  exact absurd h (by decide)

/-- **C4** (corrected).  On the html-only multipart message the extractor
returns `"Hi  there"` — every `<...>` tag is replaced by a single space
(two consecutive spaces remain between the words) and the result is
trimmed; whitespace is not collapsed. -/
theorem claim4_html_strip :
    extractEmailBody htmlMessage = .ok "Hi  there".data := rfl

/-- **C6** (confirmed).  Whenever base64 decoding of the
whitespace-stripped text fails, `decodeContent` with encoding `"base64"`
returns the original text unchanged (the `catch` branch). -/
theorem claim6_base64_fallback (t : List Char)
    (h : atob (t.filter (fun c => !(isJsWs c))) = none) :
    decodeContent t "base64".data = t := by
  cases t with
  | nil => exact absurd h (by decide)
  | cons c rest =>
    unfold decodeContent
    rw [if_neg (by simp)]
    have henc : ("base64".data.map Char.toLower) = "base64".data := by decide
    rw [henc, if_pos rfl, h]

/-- Witness for **C6** at the non-base64 input `"!!!"`. -/
theorem claim6_witness : decodeContent "!!!".data "base64".data = "!!!".data :=
  claim6_base64_fallback "!!!".data (by decide)

/-! ### C1: exception propagation -/

/-- Multipart message declaring the boundary `(`.  The source builds
`new RegExp("(?:\\r\\n)?--((?:--)?(?:\\r\\n)?", "g")` from it, an invalid
pattern (unbalanced group), so `extractEmailBody` throws a `SyntaxError`. -/
def parenBoundaryMessage : List Char :=
  "Content-Type: multipart/mixed; boundary=(\r\n\r\nbody".data

/-- **C1** counterexample.  `extractEmailBody` is *not* exception-free on
every input: a declared boundary of `(` (legal for the header pattern, whose
value class is any non-quote non-whitespace run) makes the generated
splitting pattern syntactically invalid and the `new RegExp` call throw. -/
theorem claim1_counterexample :
    extractEmailBody parenBoundaryMessage = .error () := rfl

/-- **C1** (corrected).  For every input whose declared multipart boundary
(if one is matched at all) is free of regular-expression metacharacters,
`extractEmailBody` completes without throwing; the unrestricted claim fails
only through the boundary interpolated verbatim into the splitting
pattern. -/
theorem claim1_no_throw (raw : List Char) (h : boundaryOk raw = true) :
    ∃ r, extractEmailBody raw = .ok r := by
  cases hs : splitHeaderBody raw with
  | none =>
    have hr : extractEmailBody raw = .ok (jsTrim raw) := by
      simp only [extractEmailBody, hs]
    exact ⟨_, hr⟩
  | some pr =>
    cases pr with
    | mk hd bd =>
      cases hfb : findBoundary true hd with
      | none =>
        have hr : extractEmailBody raw = singlePartExtract hd bd := by
          simp only [extractEmailBody, hs, hfb]
        exact ⟨_, hr⟩
      | some b =>
        by_cases hbe : bd.isEmpty = true
        · have hr : extractEmailBody raw = singlePartExtract hd bd := by
            simp only [extractEmailBody, hs, hfb, hbe, if_true]
          exact ⟨_, hr⟩
        · have hbe' : bd.isEmpty = false := by simpa using hbe
          have hr : extractEmailBody raw = multipartExtract b bd := by
            simp only [extractEmailBody, hs, hfb, hbe', Bool.false_eq_true, if_false]
          have hdb : declaredBoundary raw = some b := by
            unfold declaredBoundary
            rw [hs]
            simpa using hfb
          have hsafe : boundarySafe b = true := by
            unfold boundaryOk at h
            rw [hdb] at h
            exact h
          unfold multipartExtract at hr
          rw [if_pos hsafe] at hr
          exact ⟨_, hr⟩

/-- Multipart message with a quoted, regex-safe boundary. -/
def quotedBoundaryMessage : List Char :=
  "Content-Type: multipart/mixed; boundary=\"q1\"\r\n\r\n--q1\r\nContent-Type: text/plain\r\n\r\nyo\r\n--q1--\r\n".data

/-- Witness for **C1** at a concrete multipart message with a safe
boundary. -/
theorem claim1_witness :
    boundaryOk quotedBoundaryMessage = true ∧
      ∃ r, extractEmailBody quotedBoundaryMessage = .ok r :=
  ⟨by decide, claim1_no_throw quotedBoundaryMessage (by decide)⟩

/-! ### C5 and C9: the part-scanning loop -/

/-- A part the loop passes over without touching either candidate: blank,
or lacking its own CRLF-CRLF separator, or of neither `text/plain` nor
`text/html` content type. -/
def ignoredPart (q : List Char) : Bool :=
  (jsTrim q).isEmpty ||
    match splitHeaderBody q with
    | none => true
    | some (qh, _) =>
      !(containsSub "text/plain".data (lowerCT qh)) &&
      !(containsSub "text/html".data (lowerCT qh))

/-- A part the loop decodes as plain text (and then breaks on). -/
def partPlain (q : List Char) : Bool :=
  !(jsTrim q).isEmpty &&
    match splitHeaderBody q with
    | none => false
    | some (qh, _) => containsSub "text/plain".data (lowerCT qh)

/-- A part the loop decodes into the HTML candidate. -/
def partHtml (q : List Char) : Bool :=
  !(jsTrim q).isEmpty &&
    match splitHeaderBody q with
    | none => false
    | some (qh, _) =>
      !(containsSub "text/plain".data (lowerCT qh)) &&
      containsSub "text/html".data (lowerCT qh)

/-- The decoded body a part contributes to the HTML candidate, if any. -/
def htmlDecodeOf (q : List Char) : Option (List Char) :=
  if (jsTrim q).isEmpty then none
  else match splitHeaderBody q with
    | none => none
    | some (qh, qb) =>
      if containsSub "text/plain".data (lowerCT qh) then none
      else if containsSub "text/html".data (lowerCT qh) then
        some (decodeContent qb (lowerTE qh))
      else none

theorem scanParts_skip (q : List Char) (rest : List (List Char)) (p h : List Char)
    (hq : ignoredPart q = true) :
    scanParts (q :: rest) p h = scanParts rest p h := by
  unfold ignoredPart at hq
  by_cases h1 : (jsTrim q).isEmpty
  · simp only [scanParts, h1, if_true]
  · simp only [h1, Bool.false_or] at hq
    cases hsp : splitHeaderBody q with
    | none => simp only [scanParts, h1, Bool.false_eq_true, if_false, hsp]
    | some pr =>
      cases pr with
      | mk qh qb =>
        rw [hsp] at hq
        simp only [Bool.and_eq_true, Bool.not_eq_true'] at hq
        simp only [scanParts, h1, Bool.false_eq_true, if_false, hsp, hq.1, hq.2]

theorem scanParts_skip_all (pre l : List (List Char)) (p h : List Char)
    (hpre : pre.all ignoredPart = true) :
    scanParts (pre ++ l) p h = scanParts l p h := by
  induction pre with
  | nil => rfl
  | cons q t ih =>
    simp only [List.all_cons, Bool.and_eq_true] at hpre
    rw [List.cons_append, scanParts_skip q _ p h hpre.1, ih hpre.2]

theorem scanParts_plain (part : List Char) (rest : List (List Char))
    (p h ph pb : List Char)
    (hne : (jsTrim part).isEmpty = false)
    (hsp : splitHeaderBody part = some (ph, pb))
    (hct : containsSub "text/plain".data (lowerCT ph) = true) :
    scanParts (part :: rest) p h = (decodeContent pb (lowerTE ph), h) := by
  simp only [scanParts, hne, Bool.false_eq_true, if_false, hsp, hct, if_true]

/-- **C5** (confirmed).  In a multipart message whose boundary-split parts
consist of ignorable parts, then a well-formed `text/plain` part, then
anything (containing in particular a `text/html` part), the extractor
returns the trimmed decoded content of the plain part — never the HTML:
the plain part short-circuits the scan, and the final result is exactly
the plain decode trimmed (even when that trim is empty, since no HTML
candidate was stored before the break). -/
theorem claim5_plain_priority
    (raw headers body b : List Char) (pre post : List (List Char))
    (part ph pb : List Char)
    (hsplit : splitHeaderBody raw = some (headers, body))
    (hb : findBoundary true headers = some b)
    (hsafe : boundarySafe b = true)
    (hne : body.isEmpty = false)
    (hparts : splitBoundary b body = pre ++ part :: post)
    (hpre : pre.all ignoredPart = true)
    (hskip : (jsTrim part).isEmpty = false)
    (hph : splitHeaderBody part = some (ph, pb))
    (hplain : containsSub "text/plain".data (lowerCT ph) = true)
    (_hhtml : ∃ q ∈ post, partHtml q = true) :
    extractEmailBody raw = .ok (jsTrim (decodeContent pb (lowerTE ph))) := by
  clear _hhtml
  simp only [extractEmailBody, hsplit, hb, hne, Bool.false_eq_true, if_false,
    multipartExtract, hsafe, if_true]
  rw [hparts, scanParts_skip_all pre _ [] [] hpre,
    scanParts_plain part post [] [] ph pb hskip hph hplain]
  rw [resolve_nil]

/-- The multipart message of the C5 witness: a plain part followed by an
HTML part. -/
def plainThenHtmlMessage : List Char :=
  ("Content-Type: multipart/alternative; boundary=xyz\r\n\r\n--xyz\r\n" ++
   "Content-Type: text/plain\r\n\r\nhello\r\n--xyz\r\n" ++
   "Content-Type: text/html\r\n\r\n<b>bye</b>\r\n--xyz--\r\n").data

/-- Witness for **C5**: the concrete plain-then-html message yields the
plain part's content. -/
theorem claim5_witness :
    extractEmailBody plainThenHtmlMessage = .ok "hello".data :=
  claim5_plain_priority plainThenHtmlMessage
    "Content-Type: multipart/alternative; boundary=xyz".data
    ("--xyz\r\nContent-Type: text/plain\r\n\r\nhello\r\n--xyz\r\n" ++
      "Content-Type: text/html\r\n\r\n<b>bye</b>\r\n--xyz--\r\n").data
    "xyz".data
    [[]]
    ["Content-Type: text/html\r\n\r\n<b>bye</b>".data, []]
    "Content-Type: text/plain\r\n\r\nhello".data
    "Content-Type: text/plain".data
    "hello".data
    (by decide) (by decide) (by decide) (by decide) (by decide) (by decide)
    (by decide) (by decide) (by decide)
    ⟨"Content-Type: text/html\r\n\r\n<b>bye</b>".data, by decide, by decide⟩

theorem scanParts_no_plain (parts : List (List Char)) (p h : List Char)
    (hnp : parts.all (fun q => !(partPlain q)) = true) :
    scanParts parts p h =
      (p, parts.foldl (fun acc q => (htmlDecodeOf q).getD acc) h) := by
  induction parts generalizing h with
  | nil => rfl
  | cons q rest ih =>
    rw [List.all_cons, Bool.and_eq_true] at hnp
    obtain ⟨hq, hrest⟩ := hnp
    rw [Bool.not_eq_true'] at hq
    rw [List.foldl_cons]
    by_cases h1 : (jsTrim q).isEmpty = true
    · have hdec : htmlDecodeOf q = none := by
        simp [htmlDecodeOf, h1]
      rw [scanParts_skip q rest p h (by simp [ignoredPart, h1]), ih _ hrest, hdec,
        Option.getD_none]
    · have h1' : (jsTrim q).isEmpty = false := by simpa using h1
      cases hsp : splitHeaderBody q with
      | none =>
        have hdec : htmlDecodeOf q = none := by
          simp [htmlDecodeOf, h1', hsp]
        rw [scanParts_skip q rest p h (by simp [ignoredPart, h1', hsp]), ih _ hrest,
          hdec, Option.getD_none]
      | some pr =>
        cases pr with
        | mk qh qb =>
          have hqp : containsSub "text/plain".data (lowerCT qh) = false := by
            simp only [partPlain, h1', Bool.not_false, Bool.true_and, hsp] at hq
            exact hq
          by_cases hhtml : containsSub "text/html".data (lowerCT qh) = true
          · have hdec : htmlDecodeOf q = some (decodeContent qb (lowerTE qh)) := by
              simp [htmlDecodeOf, h1', hsp, hqp, hhtml]
            have hscan : scanParts (q :: rest) p h =
                scanParts rest p (decodeContent qb (lowerTE qh)) := by
              simp only [scanParts, h1', Bool.false_eq_true, if_false, hsp, hqp,
                hhtml, if_true]
            rw [hscan, ih _ hrest, hdec, Option.getD_some]
          · have hhtml' : containsSub "text/html".data (lowerCT qh) = false := by
              simpa using hhtml
            have hdec : htmlDecodeOf q = none := by
              simp [htmlDecodeOf, h1', hsp, hqp, hhtml']
            rw [scanParts_skip q rest p h
                (by simp [ignoredPart, h1', hsp, hqp, hhtml']), ih _ hrest, hdec,
              Option.getD_none]

theorem getD_getLast?_cons (x : List Char) (xs : List (List Char)) (a b : List Char) :
    ((x :: xs).getLast?).getD a = ((x :: xs).getLast?).getD b := by
  induction xs generalizing x with
  | nil => rfl
  | cons y ys ih =>
    rw [List.getLast?_cons_cons]
    exact ih y

theorem htmlCandidate_last (parts : List (List Char)) (h : List Char) :
    parts.foldl (fun acc q => (htmlDecodeOf q).getD acc) h =
      ((parts.filterMap htmlDecodeOf).getLast?).getD h := by
  induction parts generalizing h with
  | nil => rfl
  | cons q rest ih =>
    rw [List.foldl_cons, List.filterMap_cons]
    cases hq : htmlDecodeOf q with
    | none => simp only [Option.getD_none]; exact ih h
    | some d =>
      simp only [Option.getD_some]
      rw [ih d]
      cases hfm : rest.filterMap htmlDecodeOf with
      | nil => simp
      | cons x xs =>
        rw [List.getLast?_cons_cons]
        exact getD_getLast?_cons x xs d h

/-- **C9** (confirmed).  When no part of the boundary split is a
`text/plain` part, the HTML candidate the extractor resolves with is the
*last* `text/html` part's decoded body: each later HTML part overwrites
every earlier one, and the loop never exits early on HTML. -/
theorem claim9_last_html_wins
    (raw headers body b : List Char)
    (hsplit : splitHeaderBody raw = some (headers, body))
    (hb : findBoundary true headers = some b)
    (hsafe : boundarySafe b = true)
    (hne : body.isEmpty = false)
    (hnoplain : (splitBoundary b body).all (fun q => !(partPlain q)) = true) :
    extractEmailBody raw =
      .ok (resolve []
        ((((splitBoundary b body).filterMap htmlDecodeOf).getLast?).getD [])) := by
  simp only [extractEmailBody, hsplit, hb, hne, Bool.false_eq_true, if_false,
    multipartExtract, hsafe, if_true]
  rw [scanParts_no_plain _ [] [] hnoplain, htmlCandidate_last]

/-- The multipart message of the C9 witness: two HTML parts, no plain
part. -/
def twoHtmlMessage : List Char :=
  ("Content-Type: multipart/alternative; boundary=hx\r\n\r\n--hx\r\n" ++
   "Content-Type: text/html\r\n\r\n<b>one</b>\r\n--hx\r\n" ++
   "Content-Type: text/html\r\n\r\n<i>two</i>\r\n--hx--\r\n").data

/-- Witness for **C9**: with two HTML parts the second one's content is
returned (tags stripped, trimmed). -/
theorem claim9_witness :
    extractEmailBody twoHtmlMessage = .ok "two".data :=
  claim9_last_html_wins twoHtmlMessage
    "Content-Type: multipart/alternative; boundary=hx".data
    ("--hx\r\nContent-Type: text/html\r\n\r\n<b>one</b>\r\n--hx\r\n" ++
      "Content-Type: text/html\r\n\r\n<i>two</i>\r\n--hx--\r\n").data
    "hx".data
    (by decide) (by decide) (by decide) (by decide) (by decide)

/-! ### C8: recognition of the multipart Content-Type header -/

theorem dropCI_append : ∀ (pat s r : List Char),
    s.map Char.toLower = pat.map Char.toLower → dropCI pat (s ++ r) = some r := by
  intro pat
  induction pat with
  | nil =>
    intro s r hs
    have hs' : s = [] := by
      cases s with
      | nil => rfl
      | cons a t => simp at hs
    subst hs'
    rfl
  | cons a pat ih =>
    intro s r hs
    cases s with
    | nil => simp at hs
    | cons c t =>
      simp only [List.map_cons, List.cons.injEq] at hs
      rw [List.cons_append]
      show (if c.toLower == a.toLower then dropCI pat (t ++ r) else none) = some r
      rw [if_pos (by simp [hs.1]), ih t r hs.2]

theorem isJsWs_true_iff (c : Char) : isJsWs c = true ↔
    c.toNat = 9 ∨ c.toNat = 10 ∨ c.toNat = 11 ∨ c.toNat = 12 ∨ c.toNat = 13 ∨
    c.toNat = 32 ∨ c.toNat = 0xa0 ∨ c.toNat = 0x1680 ∨
    (0x2000 ≤ c.toNat ∧ c.toNat ≤ 0x200a) ∨ c.toNat = 0x2028 ∨
    c.toNat = 0x2029 ∨ c.toNat = 0x202f ∨ c.toNat = 0x205f ∨
    c.toNat = 0x3000 ∨ c.toNat = 0xfeff := by
  unfold isJsWs
  simp only [Bool.or_eq_true, beq_iff_eq, Bool.and_eq_true, decide_eq_true_eq]
  tauto

theorem isJsWs_ascii_alpha_false (c : Char)
    (h : (65 ≤ c.toNat ∧ c.toNat ≤ 90) ∨ (97 ≤ c.toNat ∧ c.toNat ≤ 122)) :
    isJsWs c = false := by
  rw [Bool.eq_false_iff, ne_eq, isJsWs_true_iff]
  omega

/-- A character whose JavaScript lower-casing is an ASCII lowercase letter
is itself an ASCII letter, hence not whitespace. -/
theorem isJsWs_false_of_toLower_alpha (c d : Char) (hcd : c.toLower = d)
    (hd : 97 ≤ d.toNat ∧ d.toNat ≤ 122) : isJsWs c = false := by
  apply isJsWs_ascii_alpha_false
  by_cases hr : c.toNat ≥ 65 ∧ c.toNat ≤ 90
  · omega
  · have hce : c = d := by simpa [Char.toLower, hr] using hcd
    subst hce
    omega

theorem dropWhile_all_append (p : Char → Bool) (w l : List Char)
    (hw : w.all p = true)
    (hl : ∀ x, l.head? = some x → p x = false) :
    (w ++ l).dropWhile p = l := by
  induction w with
  | nil =>
    cases l with
    | nil => rfl
    | cons x t =>
      simp only [List.nil_append, List.dropWhile_cons]
      rw [hl x rfl]
      simp
  | cons a w ih =>
    simp only [List.all_cons, Bool.and_eq_true] at hw
    rw [List.cons_append, List.dropWhile_cons, if_pos hw.1]
    exact ih hw.2

theorem takeWhile_all_append (p : Char → Bool) (w l : List Char)
    (hw : w.all p = true)
    (hl : ∀ x, l.head? = some x → p x = false) :
    (w ++ l).takeWhile p = w := by
  induction w with
  | nil =>
    cases l with
    | nil => rfl
    | cons x t =>
      simp only [List.nil_append, List.takeWhile_cons]
      rw [hl x rfl]
      rfl
  | cons a w ih =>
    simp only [List.all_cons, Bool.and_eq_true] at hw
    rw [List.cons_append, List.takeWhile_cons, if_pos hw.1, ih hw.2]

/-- On a header text that spells out, case-insensitively,
`Content-Type:` ⟨ws⟩ `multipart/` ⟨subtype⟩ `;` ⟨ws⟩ `boundary=` ⟨optional
quote⟩ ⟨boundary value⟩ ⟨anything⟩, the pattern attempt succeeds (with some
captured boundary). -/
theorem matchBoundaryAt_structured
    (ctL ws1 mpL subty ws2 bL q bdry tail : List Char)
    (hct : ctL.map Char.toLower = "content-type:".data)
    (hws1 : ws1.all isJsWs = true)
    (hmp : mpL.map Char.toLower = "multipart/".data)
    (hsub1 : subty ≠ []) (hsub2 : subty.all isSubtypeChar = true)
    (hws2 : ws2.all isJsWs = true)
    (hbl : bL.map Char.toLower = "boundary=".data)
    (hq : q = [] ∨ q = ['"'])
    (hbd1 : bdry ≠ []) (hbd2 : bdry.all isBoundaryChar = true) :
    ∃ v, matchBoundaryAt
      (ctL ++ (ws1 ++ (mpL ++ (subty ++
        (';' :: (ws2 ++ (bL ++ (q ++ (bdry ++ tail))))))))) = some v := by
  cases mpL with
  | nil => simp at hmp
  | cons m0 mt =>
  cases bL with
  | nil => simp at hbl
  | cons b0 bt =>
  cases bdry with
  | nil => exact absurd rfl hbd1
  | cons d0 dt =>
  have hm0 : m0.toLower = 'm' := by
    have h := congrArg List.head? hmp
    simpa using h
  have hb0 : b0.toLower = 'b' := by
    have h := congrArg List.head? hbl
    simpa using h
  have hm0w : isJsWs m0 = false := isJsWs_false_of_toLower_alpha m0 'm' hm0 (by decide)
  have hb0w : isJsWs b0 = false := isJsWs_false_of_toLower_alpha b0 'b' hb0 (by decide)
  have hd0 : isBoundaryChar d0 = true := by
    have h := hbd2
    simp only [List.all_cons, Bool.and_eq_true] at h
    exact h.1
  have hd0s : ¬(d0 = '"') ∧ isJsWs d0 = false := by
    have h := hd0
    simp only [isBoundaryChar, Bool.not_eq_true', Bool.or_eq_false_iff,
      beq_eq_false_iff_ne, ne_eq] at h
    exact h
  have s1 : ∀ rest : List Char,
      dropCI "content-type:".data (ctL ++ rest) = some rest :=
    fun rest => dropCI_append _ _ _ hct
  have s2 : ∀ rest : List Char,
      (ws1 ++ (m0 :: rest)).dropWhile isJsWs = m0 :: rest :=
    fun rest => dropWhile_all_append _ _ _ hws1 (fun x hx => by
      simp only [List.head?_cons, Option.some.injEq] at hx
      subst hx
      exact hm0w)
  have s3 : ∀ rest : List Char,
      dropCI "multipart/".data (m0 :: (mt ++ rest)) = some rest := fun rest => by
    have h := dropCI_append "multipart/".data (m0 :: mt) rest hmp
    simpa [List.cons_append] using h
  have s4 : ∀ rest : List Char,
      (subty ++ ';' :: rest).takeWhile isSubtypeChar = subty :=
    fun rest => takeWhile_all_append _ _ _ hsub2 (fun x hx => by
      simp only [List.head?_cons, Option.some.injEq] at hx
      subst hx
      decide)
  have s5 : ∀ rest : List Char,
      (subty ++ ';' :: rest).dropWhile isSubtypeChar = ';' :: rest :=
    fun rest => dropWhile_all_append _ _ _ hsub2 (fun x hx => by
      simp only [List.head?_cons, Option.some.injEq] at hx
      subst hx
      decide)
  have s6 : subty.isEmpty = false := by
    cases subty with
    | nil => exact absurd rfl hsub1
    | cons a t => rfl
  have s7 : ∀ rest : List Char,
      (ws2 ++ (b0 :: rest)).dropWhile isJsWs = b0 :: rest :=
    fun rest => dropWhile_all_append _ _ _ hws2 (fun x hx => by
      simp only [List.head?_cons, Option.some.injEq] at hx
      subst hx
      exact hb0w)
  have s8 : ∀ rest : List Char,
      dropCI "boundary=".data (b0 :: (bt ++ rest)) = some rest := fun rest => by
    have h := dropCI_append "boundary=".data (b0 :: bt) rest hbl
    simpa [List.cons_append] using h
  rcases hq with rfl | rfl
  · have hcond : ((some d0 : Option Char) == some '"') = false :=
      beq_eq_false_iff_ne.mpr (by simp [hd0s.1])
    simp only [matchBoundaryAt, List.append_assoc, List.cons_append,
      List.nil_append, s1, s2, s3, s4, s5, s6, s7, s8, Bool.false_eq_true,
      if_false, List.head?_cons, hcond, List.takeWhile_cons, hd0, if_true,
      List.isEmpty_cons, Option.some.injEq]
    exact ⟨_, rfl⟩
  · simp only [matchBoundaryAt, List.append_assoc, List.cons_append,
      List.nil_append, s1, s2, s3, s4, s5, s6, s7, s8, Bool.false_eq_true,
      if_false, List.head?_cons, beq_self_eq_true, if_true, List.tail_cons,
      List.takeWhile_cons, hd0, List.isEmpty_cons, Option.some.injEq]
    exact ⟨_, rfl⟩

/-- If some multiline-anchored position of the header block matches the
multipart pattern, the scan finds a match: `pre` is the text before the
anchored position (empty, or ending in a line terminator). -/
theorem findBoundary_ne_none (pre : List Char) :
    ∀ (suf : List Char) (anchored : Bool),
    (pre = [] → anchored = true) →
    (∀ d, pre.getLast? = some d → isLineTerm d = true) →
    matchBoundaryAt suf ≠ none →
    findBoundary anchored (pre ++ suf) ≠ none := by
  induction pre with
  | nil =>
    intro suf anchored h0 _ hm
    rw [List.nil_append, h0 rfl]
    cases suf with
    | nil => exact absurd rfl hm
    | cons c rest =>
      cases hmb : matchBoundaryAt (c :: rest) with
      | none => exact absurd hmb hm
      | some v =>
        simp only [findBoundary, if_true, hmb]
        simp
  | cons a pre ih =>
    intro suf anchored _ hlast hm
    rw [List.cons_append]
    cases hmb : (if anchored then matchBoundaryAt (a :: (pre ++ suf)) else none) with
    | some v =>
      simp only [findBoundary, hmb]
      simp
    | none =>
      simp only [findBoundary, hmb]
      apply ih suf (isLineTerm a)
      · intro hpre
        subst hpre
        exact hlast a (by simp)
      · intro d hd
        cases pre with
        | nil => simp at hd
        | cons p0 pt =>
          apply hlast
          rw [List.getLast?_cons_cons]
          exact hd
      · exact hm

/-- **C8** (confirmed).  Whenever the header block contains — at the start
of the string or right after a line terminator — a case-insensitive
`Content-Type:` header whose value is `multipart/`⟨subtype⟩`;` followed by a
`boundary=` parameter (optionally quoted, value a non-empty run of
non-quote non-whitespace characters), and the raw body after the CRLF-CRLF
separator is non-empty, `extractEmailBody` takes the multipart branch:
the boundary scan succeeds and the result is the multipart split/scan of
the body, not the single-part decode. -/
theorem claim8_multipart_branch
    (raw headers body pre ctL ws1 mpL subty ws2 bL q bdry tail : List Char)
    (hsplit : splitHeaderBody raw = some (headers, body))
    (hhdr : headers = pre ++ (ctL ++ (ws1 ++ (mpL ++ (subty ++
      (';' :: (ws2 ++ (bL ++ (q ++ (bdry ++ tail))))))))))
    (hanchor : ∀ d, pre.getLast? = some d → isLineTerm d = true)
    (hct : ctL.map Char.toLower = "content-type:".data)
    (hws1 : ws1.all isJsWs = true)
    (hmp : mpL.map Char.toLower = "multipart/".data)
    (hsub1 : subty ≠ []) (hsub2 : subty.all isSubtypeChar = true)
    (hws2 : ws2.all isJsWs = true)
    (hbl : bL.map Char.toLower = "boundary=".data)
    (hq : q = [] ∨ q = ['"'])
    (hbd1 : bdry ≠ []) (hbd2 : bdry.all isBoundaryChar = true)
    (hbody : body.isEmpty = false) :
    ∃ b, findBoundary true headers = some b ∧
      extractEmailBody raw = multipartExtract b body := by
  subst hhdr
  have hm : matchBoundaryAt (ctL ++ (ws1 ++ (mpL ++ (subty ++
      (';' :: (ws2 ++ (bL ++ (q ++ (bdry ++ tail))))))))) ≠ none := by
    obtain ⟨v, hv⟩ := matchBoundaryAt_structured ctL ws1 mpL subty ws2 bL q
      bdry tail hct hws1 hmp hsub1 hsub2 hws2 hbl hq hbd1 hbd2
    rw [hv]
    simp
  have hfb := findBoundary_ne_none pre _ true (fun _ => rfl) hanchor hm
  cases hfbv : findBoundary true (pre ++ (ctL ++ (ws1 ++ (mpL ++ (subty ++
      (';' :: (ws2 ++ (bL ++ (q ++ (bdry ++ tail)))))))))) with
  | none => exact absurd hfbv hfb
  | some b =>
    refine ⟨b, rfl, ?_⟩
    simp only [extractEmailBody, hsplit, hfbv, hbody, Bool.false_eq_true, if_false]

/-- The message of the C8 witness: a junk header line precedes the
multipart `Content-Type` header, so the pattern anchors after the CRLF. -/
def anchoredMultipartMessage : List Char :=
  ("X-Junk: 1\r\nContent-Type: multipart/mixed; boundary=zz9\r\n\r\n--zz9\r\n" ++
   "Content-Type: text/plain\r\n\r\nok\r\n--zz9--\r\n").data

/-- Witness for **C8** at the concrete anchored multipart message. -/
theorem claim8_witness :
    ∃ b, findBoundary true
        "X-Junk: 1\r\nContent-Type: multipart/mixed; boundary=zz9".data = some b ∧
      extractEmailBody anchoredMultipartMessage =
        multipartExtract b "--zz9\r\nContent-Type: text/plain\r\n\r\nok\r\n--zz9--\r\n".data :=
  claim8_multipart_branch anchoredMultipartMessage
    "X-Junk: 1\r\nContent-Type: multipart/mixed; boundary=zz9".data
    "--zz9\r\nContent-Type: text/plain\r\n\r\nok\r\n--zz9--\r\n".data
    "X-Junk: 1\r\n".data
    "Content-Type:".data " ".data "multipart/".data "mixed".data " ".data
    "boundary=".data [] "zz9".data []
    (by decide) (by decide)
    (by intro d hd; injection hd with h; subst h; decide)
    (by decide) (by decide) (by decide) (by decide) (by decide) (by decide)
    (by decide) (Or.inl rfl) (by decide) (by decide) (by decide)

end EmailToDiscord
